import Mathlib

/-!
Shallow embedding of `langchain-s3-text-loaders`
(src/langchain_s3_text_loaders/document_loaders/s3_text_directory_loader.py),
the concurrent S3 directory loader, together with theorems settling the
specification claims about it.

Conventions of the embedding:
* Python `int` becomes `Int` where sign matters (`batch_size`), `Nat` for
  sizes and indices that the S3 API guarantees non-negative.
* Fallible Python code (raising) becomes `Except`.
* The S3 listing (`bucket.objects.filter(Prefix=...)`) and the per-key
  document fetch (`S3TextFileLoader.load`, whose file is outside the core
  under verification and is an external collaborator per the spec) are
  parameters: a `List S3Object` enumeration and a
  `String → Except LoadErr (List Document)` fetch function.
* Concurrency is modelled two ways: the plain `Except` pipeline for value
  results, and a timed model (`loadTimed`) in which a completion schedule —
  the order in which in-flight tasks finish — is explicit, mirroring
  `asyncio.gather` writing each task's result back at the task's submission
  index.
-/

namespace S3Loaders

/-- Document record produced for one fetched object: text content plus a
source tag, modelling the langchain `Document` (page_content + metadata). -/
structure Document where
  pageContent : String
  source : String
deriving DecidableEq, Repr

/-- One entry of the S3 listing: object key and byte size, the two fields
`load` reads from `bucket.objects.filter(Prefix=...)` (line 130). -/
structure S3Object where
  key : String
  size : Nat
deriving DecidableEq, Repr

/-- Errors `load()` can raise: the explicit ImportError for a missing boto3
(lines 111-115), or an error propagated from a per-key fetch task. -/
inductive LoadErr where
  | importError (msg : String)
  | fetchError (msg : String)
deriving DecidableEq, Repr

/-- Loader state: the fields `__init__` assigns (lines 91-102). `botocore`
client config is opaque to this layer, modelled as `Option Unit`; Python's
`verify : Union[str, bool, None]` becomes `Option (Bool ⊕ String)`; the
`prefix` parameter is stored as `pfx` (a Lean keyword clash). -/
structure S3TextFileDirectoryLoader where
  bucket : String
  pfx : String
  batchSize : Int
  regionName : Option String
  apiVersion : Option String
  useSsl : Option Bool
  verify : Option (Bool ⊕ String)
  endpointUrl : Option String
  awsAccessKeyId : Option String
  awsSecretAccessKey : Option String
  awsSessionToken : Option String
  botoConfig : Option Unit
deriving DecidableEq, Repr

/-- Embedding of `__init__` (lines 19-105): all fields are assigned first,
then `batch_size <= 0` raises `Exception("batch_size must be greater than
0.")`. Construction is pure: it touches no network and needs no client
library. -/
def mkLoader (bucket : String) (pfx : String) (batchSize : Int)
    (regionName : Option String) (apiVersion : Option String)
    (useSsl : Option Bool) (verify : Option (Bool ⊕ String))
    (endpointUrl : Option String) (awsAccessKeyId : Option String)
    (awsSecretAccessKey : Option String) (awsSessionToken : Option String)
    (botoConfig : Option Unit) :
    Except String S3TextFileDirectoryLoader :=
  let l : S3TextFileDirectoryLoader :=
    { bucket := bucket, pfx := pfx, batchSize := batchSize
      regionName := regionName, apiVersion := apiVersion, useSsl := useSsl
      verify := verify, endpointUrl := endpointUrl
      awsAccessKeyId := awsAccessKeyId
      awsSecretAccessKey := awsSecretAccessKey
      awsSessionToken := awsSessionToken, botoConfig := botoConfig }
  if l.batchSize ≤ 0 then Except.error "batch_size must be greater than 0."
  else Except.ok l

/-- The ImportError message raised when boto3 is absent (lines 112-115). -/
def boto3ImportMsg : String :=
  "Could not import boto3 python package. Please install it with `pip install boto3`."

/-- Python `key.endswith("/")` for the one-character suffix tested at line
130: true exactly when the last character of the key is the separator
`'/'`. Defined over the key's character list so that it evaluates by
kernel reduction (core `String.endsWith` is opaque to the kernel). -/
def endsWithSlash (s : String) : Bool :=
  s.data.getLast? == some (Char.ofNat 47)

/-- Embedding of line 130: `[obj.key for obj in bucket.objects.filter(...)
if obj.size > 0 and not obj.key.endswith("/")]`. The prefix restriction is
performed remotely by S3, so `listing` is already the prefix-filtered
enumeration. -/
def filteredKeys (listing : List S3Object) : List String :=
  (listing.filter (fun o => decide (0 < o.size) && !endsWithSlash o.key)).map
    (fun o => o.key)

/-- Fuel-driven core of Python `range(start, stop, step)` for a positive
step: yields `cur` and advances by `step` while `cur < stop`. Fuel
`stop - start + 1` (supplied by `pyRange`) suffices when `1 ≤ step`. -/
def pyRangeAux (step : Nat) : Nat → Nat → Nat → List Nat
  | 0, _, _ => []
  | fuel + 1, cur, stop =>
    if cur < stop then cur :: pyRangeAux step fuel (cur + step) stop else []

/-- Python `range(start, stop, step)` (positive step). -/
def pyRange (start stop step : Nat) : List Nat :=
  pyRangeAux step (stop + 1 - start) start stop

/-- Embedding of line 132: `[objects[i:i + batch_size] for i in
range(0, len(objects), batch_size)]`. Python's slice `objects[i:i+B]` is
`(objects.drop i).take B`. -/
def partitionSlices (objects : List α) (batchSize : Nat) : List (List α) :=
  (pyRange 0 objects.length batchSize).map
    (fun i => (objects.drop i).take batchSize)

/-- Recursive chunking, the standard equivalent of the slice comprehension
(proved equal in `partitionSlices_eq_chunks` for positive batch size);
properties of the partition are established through it. -/
def chunksAux (B : Nat) : Nat → List α → List (List α)
  | 0, _ => []
  | _, [] => []
  | fuel + 1, x :: xs => ((x :: xs).take B) :: chunksAux B fuel ((x :: xs).drop B)

/-- Chunk a list into consecutive pieces of `B` elements (last may be
shorter); total recursion via a fuel bounded by the list length. -/
def chunks (B : Nat) (l : List α) : List (List α) :=
  chunksAux B l.length l

/-- The gather step of `_load_batch` (lines 148-152): one fetch task per key
in submission order, `asyncio.gather` collecting one result list per task.
If a task raises, the whole gather raises (default `return_exceptions=False`).
Which failing task's error `gather` reports depends on real completion
timing; the model reports the first failure in submission order — the claims
only rely on failure being reported, not on which error. -/
def gatherResults (fetch : String → Except LoadErr (List Document)) :
    List String → Except LoadErr (List (List Document))
  | [] => Except.ok []
  | k :: ks =>
    match fetch k with
    | Except.error e => Except.error e
    | Except.ok docs =>
      match gatherResults fetch ks with
      | Except.error e => Except.error e
      | Except.ok rest => Except.ok (docs :: rest)

/-- Embedding of `_load_batch` (lines 144-153): gather the per-key result
lists (rejoined at submission indices), then flatten
(`[doc for batch_docs in results for doc in batch_docs]`). -/
def loadBatch (fetch : String → Except LoadErr (List Document))
    (batch : List String) : Except LoadErr (List Document) :=
  match gatherResults fetch batch with
  | Except.error e => Except.error e
  | Except.ok results => Except.ok results.flatten

/-- Embedding of the batch loop of `load` (lines 134-140):
`all_docs = []; for batch in batches: docs = self._load_batch(batch,
executor); all_docs.extend(docs)`. An exception in any batch aborts the
loop and propagates. -/
def loadLoop (fetch : String → Except LoadErr (List Document)) :
    List (List String) → List Document → Except LoadErr (List Document)
  | [], allDocs => Except.ok allDocs
  | b :: rest, allDocs =>
    match loadBatch fetch b with
    | Except.error e => Except.error e
    | Except.ok docs => loadLoop fetch rest (allDocs ++ docs)

/-- Embedding of `load` (lines 107-142). `boto3Installed` models whether
`import boto3` succeeds; `listing` is the prefix-filtered S3 enumeration
the remote store returns; `fetch` is the per-key loading
(`_load_single_file`, delegating to the external `S3TextFileLoader`). -/
def load (l : S3TextFileDirectoryLoader) (boto3Installed : Bool)
    (listing : List S3Object)
    (fetch : String → Except LoadErr (List Document)) :
    Except LoadErr (List Document) :=
  if boto3Installed then
    let objects := filteredKeys listing
    let batches := partitionSlices objects l.batchSize.toNat
    loadLoop fetch batches []
  else Except.error (LoadErr.importError boto3ImportMsg)

/-- State-passing view of calling the `load` method: the returned documents
together with the loader after the call. The method body (lines 107-142)
contains no assignment to `self`, only reads of configuration fields, so
the post-state is the pre-state. -/
def loadSt (l : S3TextFileDirectoryLoader) (boto3Installed : Bool)
    (listing : List S3Object)
    (fetch : String → Except LoadErr (List Document)) :
    Except LoadErr (List Document) × S3TextFileDirectoryLoader :=
  (load l boto3Installed listing fetch, l)

/-- The keys `load` submits fetch tasks for, in submission order: the
concatenation of its batches. -/
def fetchedKeys (l : S3TextFileDirectoryLoader) (listing : List S3Object) :
    List String :=
  (partitionSlices (filteredKeys listing) l.batchSize.toNat).flatten

/-- Observable resource events of a `load()` call: worker-pool creation with
its `max_workers` bound, execution of one batch, pool teardown. -/
inductive LoadEvent where
  | poolCreate (maxW : Int)
  | batchRun (numKeys : Nat)
  | poolDestroy
deriving DecidableEq, Repr

/-- Pool-lifetime trace of `load` (lines 134-141): entering the
`with ThreadPoolExecutor(max_workers=min(batch_size, 100))` block creates
one pool, the `for batch in batches` loop runs every batch inside that
block, and leaving the block destroys the pool. -/
def loadEvents (l : S3TextFileDirectoryLoader) (listing : List S3Object) :
    List LoadEvent :=
  let batches := partitionSlices (filteredKeys listing) l.batchSize.toNat
  let w : Int := min l.batchSize 100
  LoadEvent.poolCreate w ::
    (batches.foldl (fun acc b => acc ++ [LoadEvent.batchRun b.length]) [] ++
      [LoadEvent.poolDestroy])

/-- Modelled from the spec (claim C6's reading, not the code): a fresh pool
is created before each batch and torn down when that batch completes. Used
only to compare against the code's actual trace `loadEvents`. -/
def perBatchPoolEvents (l : S3TextFileDirectoryLoader)
    (listing : List S3Object) : List LoadEvent :=
  let batches := partitionSlices (filteredKeys listing) l.batchSize.toNat
  let w : Int := min l.batchSize 100
  (batches.map (fun b =>
    [LoadEvent.poolCreate w, LoadEvent.batchRun b.length,
      LoadEvent.poolDestroy])).flatten

/-- The `max_workers` arguments of the pools a trace creates. -/
def poolSizes (evs : List LoadEvent) : List Int :=
  evs.filterMap (fun e =>
    match e with
    | LoadEvent.poolCreate w => some w
    | _ => none)

/-- Recognizer for pool-creation events. -/
def isPoolCreate : LoadEvent → Bool
  | LoadEvent.poolCreate _ => true
  | _ => false

/-- Recognizer for pool-teardown events. -/
def isPoolDestroy : LoadEvent → Bool
  | LoadEvent.poolDestroy => true
  | _ => false

/-- Timed model of the gather step: tasks are indexed by submission position
`0..n-1`; `sched` lists the positions in the order their tasks complete; a
completing task writes its result back into the slot of its submission
index (exactly how `asyncio.gather` assembles its result list). Slots of
tasks that never complete stay `none`. -/
def gatherFill (f : Nat → List Document) (sched : List Nat) (n : Nat) :
    List (Option (List Document)) :=
  sched.foldl (fun acc i => acc.set i (some (f i))) (List.replicate n none)

/-- Collect a list of optional results, succeeding only if every task
completed. -/
def allSome : List (Option α) → Option (List α)
  | [] => some []
  | none :: _ => none
  | some x :: rest => (allSome rest).map (fun l => x :: l)

/-- Timed model of `_load_batch` (lines 144-153): run the batch's tasks
under completion schedule `sched`, read the results back in submission-index
order, and flatten. Fetches are assumed to succeed (`fetch` is total); the
result is `none` only if the schedule fails to complete some task. -/
def loadBatchTimed (fetch : String → List Document) (batch : List String)
    (sched : List Nat) : Option (List Document) :=
  (allSome (gatherFill (fun i => fetch (batch.getD i "")) sched
    batch.length)).map List.flatten

/-- The batches a `load` call runs, in order. -/
def batchesOf (l : S3TextFileDirectoryLoader) (listing : List S3Object) :
    List (List String) :=
  partitionSlices (filteredKeys listing) l.batchSize.toNat

/-- Timed model of `load` (lines 107-142) under one completion schedule per
batch (`scheds i` is batch `i`'s schedule): batches run strictly one after
the other, each gathered by submission index, results concatenated in batch
order. -/
def loadTimed (l : S3TextFileDirectoryLoader) (listing : List S3Object)
    (fetch : String → List Document) (scheds : Nat → List Nat) :
    Option (List Document) :=
  let batches := batchesOf l listing
  (allSome ((List.range batches.length).map
    (fun i => loadBatchTimed fetch (batches.getD i []) (scheds i)))).map
    List.flatten

/-- A schedule family is valid for a load call when each batch's schedule
completes exactly that batch's tasks: it is a permutation of the batch's
submission indices. -/
def ValidScheds (l : S3TextFileDirectoryLoader) (listing : List S3Object)
    (scheds : Nat → List Nat) : Prop :=
  ∀ i, i < (batchesOf l listing).length →
    (scheds i).Perm (List.range ((batchesOf l listing).getD i []).length)

/-- A concrete loader configuration used to exercise the theorems. -/
def sampleLoader (b : Int) : S3TextFileDirectoryLoader :=
  { bucket := "bkt", pfx := "", batchSize := b, regionName := none
    apiVersion := none, useSsl := none, verify := none, endpointUrl := none
    awsAccessKeyId := none, awsSecretAccessKey := none
    awsSessionToken := none, botoConfig := none }

/-- A concrete S3 enumeration: a regular file, a zero-size directory
marker, and another regular file. -/
def sampleListing : List S3Object :=
  [⟨"a.txt", 10⟩, ⟨"b/", 0⟩, ⟨"c.txt", 5⟩]

/-- A concrete always-succeeding fetch: one document per key. -/
def sampleFetch : String → Except LoadErr (List Document) :=
  fun k => Except.ok [⟨k, "bkt"⟩]

/-- The pure (exception-free) view of `sampleFetch`. -/
def sampleDocs : String → List Document :=
  fun k => [⟨k, "bkt"⟩]

/-- A concrete fetch that raises on `c.txt` and succeeds elsewhere. -/
def failFetch : String → Except LoadErr (List Document) :=
  fun k =>
    if k = "c.txt" then Except.error (LoadErr.fetchError "boom")
    else Except.ok [⟨k, "bkt"⟩]

/-! Lemmas about the Python `range` embedding and the slice partition. -/

theorem pyRangeAux_of_ge (step fuel cur stop : Nat) (h : stop ≤ cur) :
    pyRangeAux step fuel cur stop = [] := by
  cases fuel with
  | zero => rfl
  | succ n => simp [pyRangeAux, Nat.not_lt.mpr h]

theorem pyRangeAux_succ_of_lt (step fuel cur stop : Nat) (h : cur < stop) :
    pyRangeAux step (fuel + 1) cur stop =
      cur :: pyRangeAux step fuel (cur + step) stop := by
  simp [pyRangeAux, h]

theorem pyRangeAux_fuel_irrel (step : Nat) (hs : 1 ≤ step) :
    ∀ fuel₁ fuel₂ cur stop, stop - cur ≤ fuel₁ → stop - cur ≤ fuel₂ →
      pyRangeAux step fuel₁ cur stop = pyRangeAux step fuel₂ cur stop := by
  intro fuel₁
  induction fuel₁ with
  | zero =>
    intro fuel₂ cur stop h1 _
    rw [pyRangeAux_of_ge step 0 cur stop (by omega),
      pyRangeAux_of_ge step fuel₂ cur stop (by omega)]
  | succ n ih =>
    intro fuel₂ cur stop h1 h2
    by_cases hc : cur < stop
    · cases fuel₂ with
      | zero => omega
      | succ m =>
        rw [pyRangeAux_succ_of_lt step n cur stop hc,
          pyRangeAux_succ_of_lt step m cur stop hc,
          ih m (cur + step) stop (by omega) (by omega)]
    · rw [pyRangeAux_of_ge step _ cur stop (by omega),
        pyRangeAux_of_ge step _ cur stop (by omega)]

theorem pyRangeAux_shift (step : Nat) :
    ∀ fuel cur stop, pyRangeAux step fuel (cur + step) stop =
      (pyRangeAux step fuel cur (stop - step)).map (fun i => i + step) := by
  intro fuel
  induction fuel with
  | zero => intro cur stop; rfl
  | succ n ih =>
    intro cur stop
    by_cases hc : cur + step < stop
    · have hc' : cur < stop - step := by omega
      rw [pyRangeAux_succ_of_lt step n (cur + step) stop hc,
        pyRangeAux_succ_of_lt step n cur (stop - step) hc',
        List.map_cons]
      exact congrArg (List.cons (cur + step)) (ih (cur + step) stop)
    · have hc' : ¬ cur < stop - step := by omega
      rw [pyRangeAux_of_ge step _ (cur + step) stop (by omega),
        pyRangeAux_of_ge step _ cur (stop - step) (by omega), List.map_nil]

theorem chunksAux_nil (B fuel : Nat) : chunksAux B fuel ([] : List α) = [] := by
  cases fuel <;> rfl

theorem chunksAux_cons (B fuel : Nat) (x : α) (xs : List α) :
    chunksAux B (fuel + 1) (x :: xs) =
      (x :: xs).take B :: chunksAux B fuel ((x :: xs).drop B) := rfl

theorem partitionSlices_eq_chunksAux (B : Nat) (hB : 1 ≤ B) :
    ∀ fuel (l : List α), l.length ≤ fuel →
      partitionSlices l B = chunksAux B fuel l := by
  intro fuel
  induction fuel with
  | zero =>
    intro l hl
    have hnil : l = [] := List.eq_nil_of_length_eq_zero (by omega)
    subst hnil
    rfl
  | succ n ih =>
    intro l hl
    cases l with
    | nil => rfl
    | cons x xs =>
      rw [chunksAux_cons]
      simp only [partitionSlices, pyRange, Nat.sub_zero, List.length_cons]
      rw [pyRangeAux_succ_of_lt B (xs.length + 1) 0 (xs.length + 1) (by omega),
        List.map_cons, List.drop_zero]
      refine congrArg (List.cons ((x :: xs).take B)) ?_
      rw [pyRangeAux_shift B (xs.length + 1) 0]
      rw [List.map_map]
      have hfix : (fun i => ((x :: xs).drop i).take B) ∘ (fun i => i + B) =
          fun i => (((x :: xs).drop B).drop i).take B := by
        funext i
        simp only [Function.comp]
        rw [List.drop_drop, Nat.add_comm]
      rw [hfix]
      have hlen : ((x :: xs).drop B).length = xs.length + 1 - B := by
        simp
      have hfuel : pyRangeAux B (xs.length + 1) 0 (xs.length + 1 - B) =
          pyRangeAux B ((xs.length + 1 - B) + 1 - 0) 0 (xs.length + 1 - B) :=
        pyRangeAux_fuel_irrel B hB _ _ 0 _ (by omega) (by omega)
      rw [hfuel]
      have hps : partitionSlices ((x :: xs).drop B) B =
          (pyRangeAux B ((xs.length + 1 - B) + 1 - 0) 0 (xs.length + 1 - B)).map
            (fun i => (((x :: xs).drop B).drop i).take B) := by
        simp only [partitionSlices, pyRange, hlen]
      rw [← hps]
      refine ih ((x :: xs).drop B) ?_
      simp only [List.length_drop, List.length_cons]
      simp only [List.length_cons] at hl
      omega

theorem partitionSlices_eq_chunks (B : Nat) (hB : 1 ≤ B) (l : List α) :
    partitionSlices l B = chunks B l :=
  partitionSlices_eq_chunksAux B hB l.length l (Nat.le_refl _)

/-! Lemmas about the chunk partition itself. -/

theorem chunksAux_flatten (B : Nat) (hB : 1 ≤ B) :
    ∀ fuel (l : List α), l.length ≤ fuel → (chunksAux B fuel l).flatten = l := by
  intro fuel
  induction fuel with
  | zero =>
    intro l hl
    have hnil : l = [] := List.eq_nil_of_length_eq_zero (by omega)
    subst hnil
    rfl
  | succ n ih =>
    intro l hl
    cases l with
    | nil => rfl
    | cons x xs =>
      simp only [List.length_cons] at hl
      rw [chunksAux_cons, List.flatten_cons,
        ih ((x :: xs).drop B)
          (by simp only [List.length_drop, List.length_cons]; omega)]
      exact List.take_append_drop B (x :: xs)

theorem chunksAux_length (B : Nat) (hB : 1 ≤ B) :
    ∀ fuel (l : List α), l.length ≤ fuel →
      (chunksAux B fuel l).length = (l.length + B - 1) / B := by
  intro fuel
  induction fuel with
  | zero =>
    intro l hl
    have hnil : l = [] := List.eq_nil_of_length_eq_zero (by omega)
    subst hnil
    simp [chunksAux_nil]
    exact (Nat.div_eq_of_lt (by omega)).symm
  | succ n ih =>
    intro l hl
    cases l with
    | nil =>
      simp [chunksAux_nil]
      exact (Nat.div_eq_of_lt (by omega)).symm
    | cons x xs =>
      simp only [List.length_cons] at hl
      rw [chunksAux_cons]
      simp only [List.length_cons]
      rw [ih ((x :: xs).drop B)
        (by simp only [List.length_drop, List.length_cons]; omega)]
      simp only [List.length_drop, List.length_cons]
      have hRHS : xs.length + 1 + B - 1 = xs.length + B := by omega
      rw [hRHS, Nat.add_div_right _ (by omega : 0 < B)]
      by_cases hnb : B ≤ xs.length + 1
      · have h1 : xs.length + 1 - B + B - 1 = xs.length := by omega
        rw [h1]
      · have h2 : xs.length + 1 - B = 0 := by omega
        rw [h2, Nat.zero_add, Nat.div_eq_of_lt (by omega : B - 1 < B),
          Nat.div_eq_of_lt (by omega : xs.length < B)]

theorem chunksAux_dropLast (B : Nat) (hB : 1 ≤ B) :
    ∀ fuel (l : List α), l.length ≤ fuel →
      ∀ c ∈ (chunksAux B fuel l).dropLast, c.length = B := by
  intro fuel
  induction fuel with
  | zero =>
    intro l hl c hc
    have hnil : l = [] := List.eq_nil_of_length_eq_zero (by omega)
    subst hnil
    simp [chunksAux_nil] at hc
  | succ n ih =>
    intro l hl c hc
    cases l with
    | nil => simp [chunksAux_nil] at hc
    | cons x xs =>
      simp only [List.length_cons] at hl
      rw [chunksAux_cons] at hc
      by_cases hrest : chunksAux B n ((x :: xs).drop B) = []
      · rw [hrest] at hc
        simp at hc
      · rw [List.dropLast_cons_of_ne_nil hrest] at hc
        rcases List.mem_cons.mp hc with h | h
        · subst h
          have hlen : B < xs.length + 1 := by
            by_contra hge
            have hdn : (x :: xs).drop B = [] :=
              List.drop_eq_nil_of_le (by simp only [List.length_cons]; omega)
            rw [hdn, chunksAux_nil] at hrest
            exact hrest rfl
          simp only [List.length_take, List.length_cons]
          omega
        · exact ih ((x :: xs).drop B)
            (by simp only [List.length_drop, List.length_cons]; omega) c h

theorem chunks_flatten (B : Nat) (hB : 1 ≤ B) (l : List α) :
    (chunks B l).flatten = l :=
  chunksAux_flatten B hB l.length l (Nat.le_refl _)

theorem chunks_length (B : Nat) (hB : 1 ≤ B) (l : List α) :
    (chunks B l).length = (l.length + B - 1) / B :=
  chunksAux_length B hB l.length l (Nat.le_refl _)

theorem chunks_dropLast (B : Nat) (hB : 1 ≤ B) (l : List α) :
    ∀ c ∈ (chunks B l).dropLast, c.length = B :=
  chunksAux_dropLast B hB l.length l (Nat.le_refl _)

/-! Lemmas about the fetch/gather/flatten pipeline. -/

theorem gatherResults_ok (fetch : String → Except LoadErr (List Document))
    (f : String → List Document) :
    ∀ ks : List String, (∀ k ∈ ks, fetch k = Except.ok (f k)) →
      gatherResults fetch ks = Except.ok (ks.map f) := by
  intro ks
  induction ks with
  | nil => intro _; rfl
  | cons k rest ih =>
    intro h
    have hk : fetch k = Except.ok (f k) := h k (by simp)
    have hrest := ih (fun k' hk' => h k' (by simp [hk']))
    simp [gatherResults, hk, hrest]

theorem gatherResults_error (fetch : String → Except LoadErr (List Document))
    (k : String) (e : LoadErr) :
    ∀ ks : List String, k ∈ ks → fetch k = Except.error e →
      ∃ e', gatherResults fetch ks = Except.error e' := by
  intro ks
  induction ks with
  | nil => intro h; simp at h
  | cons k₀ rest ih =>
    intro hmem he
    rcases h0 : fetch k₀ with e₀ | docs₀
    · exact ⟨e₀, by simp [gatherResults, h0]⟩
    · have hk : k ∈ rest := by
        rcases List.mem_cons.mp hmem with h | h
        · subst h
          rw [h0] at he
          exact absurd he (by simp)
        · exact h
      obtain ⟨e', he'⟩ := ih hk he
      exact ⟨e', by simp [gatherResults, h0, he']⟩

theorem loadBatch_ok (fetch : String → Except LoadErr (List Document))
    (f : String → List Document) (b : List String)
    (h : ∀ k ∈ b, fetch k = Except.ok (f k)) :
    loadBatch fetch b = Except.ok ((b.map f).flatten) := by
  simp [loadBatch, gatherResults_ok fetch f b h]

theorem loadBatch_error (fetch : String → Except LoadErr (List Document))
    (k : String) (e : LoadErr) (b : List String) (hmem : k ∈ b)
    (he : fetch k = Except.error e) :
    ∃ e', loadBatch fetch b = Except.error e' := by
  obtain ⟨e', he'⟩ := gatherResults_error fetch k e b hmem he
  exact ⟨e', by simp [loadBatch, he']⟩

theorem loadLoop_ok (fetch : String → Except LoadErr (List Document))
    (f : String → List Document) :
    ∀ (batches : List (List String)) (acc : List Document),
      (∀ b ∈ batches, ∀ k ∈ b, fetch k = Except.ok (f k)) →
      loadLoop fetch batches acc =
        Except.ok (acc ++ (batches.map (fun b => (b.map f).flatten)).flatten) := by
  intro batches
  induction batches with
  | nil => intro acc _; simp [loadLoop]
  | cons b rest ih =>
    intro acc h
    have hb := loadBatch_ok fetch f b (h b (by simp))
    have hrest := ih (acc ++ (b.map f).flatten)
      (fun b' hb' k hk => h b' (by simp [hb']) k hk)
    simp [loadLoop, hb, hrest]

theorem loadLoop_error (fetch : String → Except LoadErr (List Document))
    (b : List String) (e : LoadErr) :
    ∀ (batches : List (List String)) (acc : List Document),
      b ∈ batches → loadBatch fetch b = Except.error e →
      ∃ e', loadLoop fetch batches acc = Except.error e' := by
  intro batches
  induction batches with
  | nil => intro acc h; simp at h
  | cons b₀ rest ih =>
    intro acc hmem he
    rcases h0 : loadBatch fetch b₀ with e₀ | docs₀
    · exact ⟨e₀, by simp [loadLoop, h0]⟩
    · have hb : b ∈ rest := by
        rcases List.mem_cons.mp hmem with h | h
        · subst h
          rw [h0] at he
          exact absurd he (by simp)
        · exact h
      obtain ⟨e', he'⟩ := ih (acc ++ docs₀) hb he
      exact ⟨e', by simp [loadLoop, h0, he']⟩

theorem flatten_map_flatten (f : String → List Document) :
    ∀ bs : List (List String),
      (bs.map (fun b => (b.map f).flatten)).flatten = ((bs.flatten).map f).flatten := by
  intro bs
  induction bs with
  | nil => rfl
  | cons b rest ih => simp [ih]

/-! Lemmas about the timed gather model: writing completed results back at
their submission indices makes the final array independent of the
completion order. -/

theorem foldl_set_length (f : Nat → α) :
    ∀ (sched : List Nat) (init : List (Option α)),
      (sched.foldl (fun acc i => acc.set i (some (f i))) init).length =
        init.length := by
  intro sched
  induction sched with
  | nil => intro init; rfl
  | cons i₀ rest ih =>
    intro init
    simp only [List.foldl_cons]
    rw [ih (init.set i₀ (some (f i₀))), List.length_set]

theorem foldl_set_getElem (f : Nat → α) :
    ∀ (sched : List Nat) (init : List (Option α)) (j : Nat),
      (sched.foldl (fun acc i => acc.set i (some (f i))) init)[j]? =
        if j ∈ sched ∧ j < init.length then some (some (f j)) else init[j]? := by
  intro sched
  induction sched with
  | nil =>
    intro init j
    simp
  | cons i₀ rest ih =>
    intro init j
    simp only [List.foldl_cons]
    rw [ih (init.set i₀ (some (f i₀))) j]
    simp only [List.length_set]
    by_cases hjr : j ∈ rest ∧ j < init.length
    · rw [if_pos hjr, if_pos ⟨List.mem_cons_of_mem i₀ hjr.1, hjr.2⟩]
    · rw [if_neg hjr]
      by_cases hji : j = i₀
      · subst hji
        by_cases hlt : j < init.length
        · rw [List.getElem?_set_self hlt,
            if_pos ⟨List.mem_cons_self j rest, hlt⟩]
        · rw [if_neg (fun hh => hlt hh.2),
            List.getElem?_eq_none
              (by simp only [List.length_set]; exact Nat.le_of_not_lt hlt),
            List.getElem?_eq_none (Nat.le_of_not_lt hlt)]
      · rw [List.getElem?_set_ne (fun hh => hji hh.symm),
          if_neg (fun hh =>
            hjr ⟨(List.mem_cons.mp hh.1).resolve_left hji, hh.2⟩)]

theorem gatherFill_perm (f : Nat → List Document) (sched : List Nat) (n : Nat)
    (hperm : sched.Perm (List.range n)) :
    gatherFill f sched n = (List.range n).map (fun i => some (f i)) := by
  apply List.ext_getElem?
  intro j
  simp only [gatherFill]
  rw [foldl_set_getElem f sched (List.replicate n none) j]
  simp only [List.length_replicate]
  have hmem : j ∈ sched ↔ j < n := by
    rw [hperm.mem_iff, List.mem_range]
  by_cases hj : j < n
  · rw [if_pos ⟨hmem.mpr hj, hj⟩]
    rw [List.getElem?_map, List.getElem?_range hj]
    rfl
  · rw [if_neg (fun hh => hj hh.2),
      List.getElem?_eq_none (by simp [Nat.le_of_not_lt hj]),
      List.getElem?_eq_none (by simp [Nat.le_of_not_lt hj])]

theorem allSome_map_some : ∀ l : List α, allSome (l.map some) = some l := by
  intro l
  induction l with
  | nil => rfl
  | cons x xs ih => simp [allSome, ih]

theorem allSome_map_eq (g : α → Option β) (h : α → β) :
    ∀ l : List α, (∀ x ∈ l, g x = some (h x)) →
      allSome (l.map g) = some (l.map h) := by
  intro l
  induction l with
  | nil => intro _; rfl
  | cons x xs ih =>
    intro hall
    have hx : g x = some (h x) := hall x (by simp)
    have hxs := ih (fun y hy => hall y (by simp [hy]))
    simp [allSome, hx, hxs]

theorem map_getD_range (d : α) :
    ∀ l : List α, (List.range l.length).map (fun i => l.getD i d) = l := by
  intro l
  induction l with
  | nil => rfl
  | cons x xs ih =>
    rw [List.length_cons, List.range_succ_eq_map, List.map_cons,
      List.getD_cons_zero, List.map_map]
    have hcomp : ((fun i => (x :: xs).getD i d) ∘ Nat.succ) =
        fun i => xs.getD i d := by
      funext i
      simp [List.getD_cons_succ]
    rw [hcomp, ih]

theorem map_F_getD_range (d : α) (F : α → β) (l : List α) :
    (List.range l.length).map (fun i => F (l.getD i d)) = l.map F := by
  have h1 : (fun i => F (l.getD i d)) = F ∘ (fun i => l.getD i d) := rfl
  rw [h1, ← List.map_map, map_getD_range]

theorem loadBatchTimed_perm (fetch : String → List Document)
    (batch : List String) (sched : List Nat)
    (hperm : sched.Perm (List.range batch.length)) :
    loadBatchTimed fetch batch sched = some ((batch.map fetch).flatten) := by
  simp only [loadBatchTimed]
  rw [gatherFill_perm _ sched batch.length hperm]
  have h1 : (List.range batch.length).map
      (fun i => some (fetch (batch.getD i ""))) =
      ((List.range batch.length).map (fun i => fetch (batch.getD i ""))).map
        some := by
    rw [List.map_map]
    rfl
  rw [h1, allSome_map_some, map_F_getD_range "" fetch batch]
  rfl

theorem loadTimed_valid (l : S3TextFileDirectoryLoader)
    (listing : List S3Object) (fetch : String → List Document)
    (scheds : Nat → List Nat) (h : ValidScheds l listing scheds) :
    loadTimed l listing fetch scheds =
      some (((batchesOf l listing).map
        (fun b => (b.map fetch).flatten)).flatten) := by
  simp only [loadTimed]
  rw [allSome_map_eq _
    (fun i => (((batchesOf l listing).getD i []).map fetch).flatten) _
    (fun i hi =>
      loadBatchTimed_perm fetch ((batchesOf l listing).getD i []) (scheds i)
        (h i (List.mem_range.mp hi)))]
  rw [map_F_getD_range [] (fun b => (b.map fetch).flatten) (batchesOf l listing)]
  rfl

/-! Lemmas about the pool-lifetime trace. -/

theorem foldl_append_map (g : List String → LoadEvent) :
    ∀ (bs : List (List String)) (acc : List LoadEvent),
      bs.foldl (fun acc b => acc ++ [g b]) acc = acc ++ bs.map g := by
  intro bs
  induction bs with
  | nil => intro acc; simp
  | cons b rest ih =>
    intro acc
    simp only [List.foldl_cons, List.map_cons]
    rw [ih (acc ++ [g b])]
    simp

theorem loadEvents_eq (l : S3TextFileDirectoryLoader)
    (listing : List S3Object) :
    loadEvents l listing =
      LoadEvent.poolCreate (min l.batchSize 100) ::
        ((batchesOf l listing).map (fun b => LoadEvent.batchRun b.length) ++
          [LoadEvent.poolDestroy]) := by
  simp only [loadEvents, batchesOf]
  rw [foldl_append_map (fun b => LoadEvent.batchRun b.length)]
  simp

theorem poolSizes_map_batchRun (ns : List (List String)) :
    poolSizes (ns.map (fun b => LoadEvent.batchRun b.length)) = [] := by
  simp [poolSizes, List.filterMap_map]

theorem countP_map_batchRun (p : LoadEvent → Bool)
    (hp : ∀ n, p (LoadEvent.batchRun n) = false) (ns : List (List String)) :
    (ns.map (fun b => LoadEvent.batchRun b.length)).countP p = 0 := by
  rw [List.countP_eq_zero]
  intro e he
  obtain ⟨b, _, rfl⟩ := List.mem_map.mp he
  simp [hp]

/-! Claim theorems. -/

/-- Small helper lemmas for `poolSizes` over trace shapes. -/
theorem poolSizes_cons_create (w : Int) (evs : List LoadEvent) :
    poolSizes (LoadEvent.poolCreate w :: evs) = w :: poolSizes evs := by
  simp [poolSizes, List.filterMap_cons]

theorem poolSizes_append (evs₁ evs₂ : List LoadEvent) :
    poolSizes (evs₁ ++ evs₂) = poolSizes evs₁ ++ poolSizes evs₂ := by
  simp [poolSizes, List.filterMap_append]

/-- C1: the document sequence of `load()` is independent of fetch-completion
timing: for any two valid completion schedules — each one a permutation of
the per-batch submission indices, e.g. two concurrent fetches with their
completion times swapped — the timed model of `load` returns the same
sequence, because the gather step rejoins results at submission indices and
the batches are flattened in submission order. -/
theorem load_order_schedule_independent (l : S3TextFileDirectoryLoader)
    (listing : List S3Object) (fetch : String → List Document)
    (scheds₁ scheds₂ : Nat → List Nat) (h₁ : ValidScheds l listing scheds₁)
    (h₂ : ValidScheds l listing scheds₂) :
    loadTimed l listing fetch scheds₁ = loadTimed l listing fetch scheds₂ := by
  rw [loadTimed_valid l listing fetch scheds₁ h₁,
    loadTimed_valid l listing fetch scheds₂ h₂]

/-- Witness for C1: one batch of two keys, with the two completion orders
swapped, yields identical output. -/
theorem load_order_schedule_independent_witness :
    loadTimed (sampleLoader 2) sampleListing sampleDocs (fun _ => [0, 1]) =
      loadTimed (sampleLoader 2) sampleListing sampleDocs (fun _ => [1, 0]) :=
  load_order_schedule_independent (sampleLoader 2) sampleListing sampleDocs
    (fun _ => [0, 1]) (fun _ => [1, 0]) (by unfold ValidScheds; decide)
    (by unfold ValidScheds; decide)

/-- C2: for every key list of length `N` and every `batch_size = B ≥ 1`,
the partition step of `load()` (line 132) produces exactly
`ceil(N/B) = (N + B - 1) / B` batches; every batch except possibly the last
has exactly `B` keys; the batch sizes sum to `N`; and concatenating the
batches in order gives back the original list (no gaps, no overlaps, order
preserved). -/
theorem load_partition_batches (B : Nat) (hB : 1 ≤ B) (l : List String) :
    (partitionSlices l B).length = (l.length + B - 1) / B
    ∧ (∀ c ∈ (partitionSlices l B).dropLast, c.length = B)
    ∧ ((partitionSlices l B).map List.length).sum = l.length
    ∧ (partitionSlices l B).flatten = l := by
  rw [partitionSlices_eq_chunks B hB l]
  refine ⟨chunks_length B hB l, chunks_dropLast B hB l, ?_,
    chunks_flatten B hB l⟩
  rw [← List.length_flatten, chunks_flatten B hB l]

/-- Witness for C2 at `B = 2`, three keys: two batches, sizes `[2, 1]`. -/
theorem load_partition_batches_witness :
    (partitionSlices ["k1", "k2", "k3"] 2).length = (3 + 2 - 1) / 2
    ∧ (∀ c ∈ (partitionSlices ["k1", "k2", "k3"] 2).dropLast, c.length = 2)
    ∧ ((partitionSlices ["k1", "k2", "k3"] 2).map List.length).sum = 3
    ∧ (partitionSlices ["k1", "k2", "k3"] 2).flatten = ["k1", "k2", "k3"] := by
  have h := load_partition_batches 2 (by decide) ["k1", "k2", "k3"]
  simpa using h

/-- C3: if the fetch of any filtered key raises, `load()` raises: the
result is an `Except.error` carrying no documents, so no partial result —
neither from completed sibling tasks in the same batch nor from earlier
batches — is surfaced to the caller. -/
theorem load_fail_fast (l : S3TextFileDirectoryLoader)
    (listing : List S3Object)
    (fetch : String → Except LoadErr (List Document)) (k : String)
    (e : LoadErr) (hB : 1 ≤ l.batchSize) (hk : k ∈ filteredKeys listing)
    (he : fetch k = Except.error e) :
    ∃ e', load l true listing fetch = Except.error e' := by
  have hBn : 1 ≤ l.batchSize.toNat := by omega
  have hflat :
      (partitionSlices (filteredKeys listing) l.batchSize.toNat).flatten =
        filteredKeys listing := by
    rw [partitionSlices_eq_chunks _ hBn, chunks_flatten _ hBn]
  have hk' : k ∈
      (partitionSlices (filteredKeys listing) l.batchSize.toNat).flatten := by
    rw [hflat]
    exact hk
  obtain ⟨b, hb, hkb⟩ := List.mem_flatten.mp hk'
  obtain ⟨e₀, he₀⟩ := loadBatch_error fetch k e b hkb he
  obtain ⟨e', he'⟩ := loadLoop_error fetch b e₀ _ [] hb he₀
  exact ⟨e', he'⟩

/-- Witness for C3: with `batch_size = 1` and a fetch raising on `c.txt`,
the sample load raises. -/
theorem load_fail_fast_witness :
    ∃ e', load (sampleLoader 1) true sampleListing failFetch =
      Except.error e' :=
  load_fail_fast (sampleLoader 1) sampleListing failFetch "c.txt"
    (LoadErr.fetchError "boom") (by decide) (by decide) rfl

/-- C4: constructing the directory loader with `batch_size ≤ 0` fails
immediately with the configuration error — construction is a pure function
of its arguments, so no network activity is attempted — and with
`batch_size ≥ 1` construction succeeds, storing the given batch size. -/
theorem mkLoader_batchSize_validation (bucket pfx : String) (b : Int)
    (regionName apiVersion : Option String) (useSsl : Option Bool)
    (verify : Option (Bool ⊕ String)) (endpointUrl : Option String)
    (awsAccessKeyId awsSecretAccessKey awsSessionToken : Option String)
    (botoConfig : Option Unit) :
    (b ≤ 0 → mkLoader bucket pfx b regionName apiVersion useSsl verify
        endpointUrl awsAccessKeyId awsSecretAccessKey awsSessionToken
        botoConfig = Except.error "batch_size must be greater than 0.")
    ∧ (1 ≤ b → ∃ loader, mkLoader bucket pfx b regionName apiVersion useSsl
        verify endpointUrl awsAccessKeyId awsSecretAccessKey awsSessionToken
        botoConfig = Except.ok loader ∧ loader.batchSize = b) := by
  constructor
  · intro hb
    simp [mkLoader, hb]
  · intro hb
    have hngt : ¬ (b ≤ 0) := by omega
    refine ⟨{ bucket := bucket, pfx := pfx, batchSize := b,
              regionName := regionName, apiVersion := apiVersion,
              useSsl := useSsl, verify := verify,
              endpointUrl := endpointUrl,
              awsAccessKeyId := awsAccessKeyId,
              awsSecretAccessKey := awsSecretAccessKey,
              awsSessionToken := awsSessionToken,
              botoConfig := botoConfig },
      ?_, rfl⟩
    simp [mkLoader, hngt]

/-- Witness for C4: `batch_size = 0` rejected, `batch_size = 3` accepted. -/
theorem mkLoader_batchSize_validation_witness :
    (mkLoader "bkt" "" 0 none none none none none none none none none =
      Except.error "batch_size must be greater than 0.")
    ∧ ∃ loader,
        mkLoader "bkt" "" 3 none none none none none none none none none =
          Except.ok loader ∧ loader.batchSize = 3 :=
  ⟨(mkLoader_batchSize_validation "bkt" "" 0 none none none none none none
      none none none).1 (by decide),
    (mkLoader_batchSize_validation "bkt" "" 3 none none none none none none
      none none none).2 (by decide)⟩

/-- C5: the filtered key list used for batching contains exactly the keys
of listing entries whose size is strictly positive and whose key does not
end in "/"; and any key found inside any batch of the partition comes from
such an entry, so no size-0 or trailing-separator key ever reaches a
batch. -/
theorem load_filter_exact (listing : List S3Object) (k : String) (B : Nat)
    (b : List String) :
    (k ∈ filteredKeys listing ↔
      ∃ o ∈ listing, o.key = k ∧ 0 < o.size ∧ endsWithSlash o.key = false)
    ∧ (b ∈ partitionSlices (filteredKeys listing) B → k ∈ b →
        ∃ o ∈ listing, o.key = k ∧ 0 < o.size ∧
          endsWithSlash o.key = false) := by
  have hiff : k ∈ filteredKeys listing ↔
      ∃ o ∈ listing, o.key = k ∧ 0 < o.size ∧ endsWithSlash o.key = false := by
    simp only [filteredKeys, List.mem_map, List.mem_filter,
      Bool.and_eq_true, decide_eq_true_eq, Bool.not_eq_true']
    constructor
    · rintro ⟨o, ⟨ho, hsz, hsl⟩, rfl⟩
      exact ⟨o, ho, rfl, hsz, hsl⟩
    · rintro ⟨o, ho, rfl, hsz, hsl⟩
      exact ⟨o, ⟨ho, hsz, hsl⟩, rfl⟩
  refine ⟨hiff, fun hb hk => hiff.mp ?_⟩
  simp only [partitionSlices] at hb
  obtain ⟨i, _, rfl⟩ := List.mem_map.mp hb
  exact List.mem_of_mem_drop (List.mem_of_mem_take hk)

/-- Witness for C5: the key `a.txt` of the first batch of the sample
partition indeed stems from a positive-size, non-directory entry. -/
theorem load_filter_exact_witness :
    ∃ o ∈ sampleListing, o.key = "a.txt" ∧ 0 < o.size ∧
      endsWithSlash o.key = false :=
  (load_filter_exact sampleListing "a.txt" 1 ["a.txt"]).2 (by decide)
    (by decide)

/-- C6 counterexample: with `batch_size = 1` and two qualifying objects,
the trace of `load()` creates one pool around both batches, not the fresh
per-batch pools the claim asserts (`perBatchPoolEvents` renders the claim's
wording). -/
theorem load_pool_not_per_batch :
    loadEvents (sampleLoader 1) [⟨"a", 1⟩, ⟨"c", 1⟩] ≠
      perBatchPoolEvents (sampleLoader 1) [⟨"a", 1⟩, ⟨"c", 1⟩] := by
  decide

/-- C6 amended: during every `load()` call exactly one worker pool is
created — as the first action, before any batch runs — and exactly one pool
teardown occurs, as the last action after all batches; all batches of the
call share that single pool (the per-batch fresh pool of the original claim
is refuted by `load_pool_not_per_batch`). -/
theorem load_single_pool_per_call (l : S3TextFileDirectoryLoader)
    (listing : List S3Object) :
    (loadEvents l listing).countP isPoolCreate = 1
    ∧ (loadEvents l listing).countP isPoolDestroy = 1
    ∧ (loadEvents l listing).head? =
        some (LoadEvent.poolCreate (min l.batchSize 100))
    ∧ (loadEvents l listing).getLast? = some LoadEvent.poolDestroy := by
  rw [loadEvents_eq]
  refine ⟨?_, ?_, rfl, ?_⟩
  · rw [List.countP_cons]
    simp [isPoolCreate, List.countP_append,
      countP_map_batchRun isPoolCreate (fun n => rfl)]
  · rw [List.countP_cons]
    simp [isPoolDestroy, List.countP_append,
      countP_map_batchRun isPoolDestroy (fun n => rfl)]
  · rw [← List.cons_append, List.getLast?_concat]

/-- C7: every pool `load()` creates has size exactly
`min(batch_size, 100)` (line 136), a constant computed from the configured
batch size alone: the trace contains exactly one pool creation of that
size, and the pool-size trace is the same for any two listings — in
particular unaffected by a final batch shorter than `batch_size`. -/
theorem load_pool_size (l : S3TextFileDirectoryLoader)
    (listing listing' : List S3Object) :
    poolSizes (loadEvents l listing) = [min l.batchSize 100]
    ∧ poolSizes (loadEvents l listing) = poolSizes (loadEvents l listing') := by
  have hgen : ∀ ls : List S3Object,
      poolSizes (loadEvents l ls) = [min l.batchSize 100] := by
    intro ls
    rw [loadEvents_eq, poolSizes_cons_create, poolSizes_append,
      poolSizes_map_batchRun]
    rfl
  exact ⟨hgen listing, (hgen listing).trans (hgen listing').symm⟩

/-- C8: the loader is stateless across calls: the state-passing view of the
`load` method (whose body, lines 107-142, contains no assignment to `self`)
returns the loader unchanged, and a second `load()` on the post-state of
the first call — against the same unchanged listing and fetch — returns a
document sequence equal to the first call's. -/
theorem load_stateless_idempotent (l : S3TextFileDirectoryLoader)
    (installed : Bool) (listing : List S3Object)
    (fetch : String → Except LoadErr (List Document)) :
    (loadSt l installed listing fetch).2 = l
    ∧ (loadSt (loadSt l installed listing fetch).2 installed listing
        fetch).1 = (loadSt l installed listing fetch).1 :=
  ⟨rfl, rfl⟩

/-- C9: without boto3 installed, `load()` fails at first use with the
explicit ImportError whose message names the missing package (`boto3`) and
how to install it (`pip install boto3`); construction (`mkLoader`) does not
depend on the library at all — it takes no installation flag. -/
theorem load_missing_boto3 (l : S3TextFileDirectoryLoader)
    (listing : List S3Object)
    (fetch : String → Except LoadErr (List Document)) :
    load l false listing fetch =
      Except.error (LoadErr.importError boto3ImportMsg)
    ∧ (∃ left right : String, boto3ImportMsg = left ++ "boto3" ++ right)
    ∧ (∃ left right : String,
        boto3ImportMsg = left ++ "pip install boto3" ++ right) :=
  ⟨rfl,
    ⟨"Could not import ",
      " python package. Please install it with `pip install boto3`.", rfl⟩,
    ⟨"Could not import boto3 python package. Please install it with `",
      "`.", rfl⟩⟩

/-- C10: when every per-key fetch succeeds, `load()` returns exactly the
concatenation of the per-key document lists in filtered-key order — a
result independent of `batch_size` — and the keys it fetches are exactly
the filtered keys in order, so an empty filtered key list performs no fetch
and yields `[]`. -/
theorem load_concat_of_ok (l : S3TextFileDirectoryLoader)
    (listing : List S3Object)
    (fetch : String → Except LoadErr (List Document))
    (f : String → List Document) (hB : 1 ≤ l.batchSize)
    (hf : ∀ k, fetch k = Except.ok (f k)) :
    load l true listing fetch =
      Except.ok (((filteredKeys listing).map f).flatten)
    ∧ fetchedKeys l listing = filteredKeys listing := by
  have hBn : 1 ≤ l.batchSize.toNat := by omega
  have hflat :
      (partitionSlices (filteredKeys listing) l.batchSize.toNat).flatten =
        filteredKeys listing := by
    rw [partitionSlices_eq_chunks _ hBn, chunks_flatten _ hBn]
  constructor
  · have hloop := loadLoop_ok fetch f
      (partitionSlices (filteredKeys listing) l.batchSize.toNat) []
      (fun b _ k _ => hf k)
    have hdef : load l true listing fetch = loadLoop fetch
        (partitionSlices (filteredKeys listing) l.batchSize.toNat) [] := rfl
    rw [hdef, hloop, List.nil_append, flatten_map_flatten, hflat]
  · exact hflat

/-- Witness for C10: the sample load with `batch_size = 2` returns the
per-key documents of `a.txt` and `c.txt` in enumeration order. -/
theorem load_concat_of_ok_witness :
    load (sampleLoader 2) true sampleListing sampleFetch =
      Except.ok (((filteredKeys sampleListing).map sampleDocs).flatten)
    ∧ fetchedKeys (sampleLoader 2) sampleListing =
        filteredKeys sampleListing :=
  load_concat_of_ok (sampleLoader 2) sampleListing sampleFetch sampleDocs
    (by decide) (fun k => rfl)

end S3Loaders
